import Mathlib

/-!
Verification of the godoc-static scraper core: package-set resolution,
case-insensitive sorting, the index-builder's shared-prefix layout, the
page transformer's link rewriting and head/nav rules, the backend poll
loop, and the phase-1 deadline race.  Strings are modelled as lists of
characters; Go's byte-wise operations on ASCII package paths coincide
with character-wise operations here.
-/

set_option maxHeartbeats 1000000

abbrev Str := List Char

/-- ASCII case folding, the behaviour of strings.ToLower on package paths. -/
def lowerChar (c : Char) : Char :=
  if 'A' ≤ c ∧ c ≤ 'Z' then Char.ofNat (c.toNat + 32) else c

def lowerStr (s : Str) : Str := s.map lowerChar

/-- Go's byte-wise string less-than on character lists. -/
def lexLt : Str → Str → Bool
  | _, [] => false
  | [], _ :: _ => true
  | a :: as, b :: bs => if a = b then lexLt as bs else decide (a < b)

/-- The comparator passed to sort.Slice in run:
strings.ToLower(pkgs[i]) < strings.ToLower(pkgs[j]). -/
def lessPkg (a b : Str) : Bool := lexLt (lowerStr a) (lowerStr b)

/-- Stable insertion: x is placed before the first element not less than it.
This matches Go's insertion sort (used by sort.Slice on small slices),
which keeps the input order of elements the comparator cannot separate. -/
def insertSorted (x : Str) : List Str → List Str
  | [] => [x]
  | y :: ys => if lessPkg y x then y :: insertSorted x ys else x :: y :: ys

def sortPkgs : List Str → List Str
  | [] => []
  | x :: xs => insertSorted x (sortPkgs xs)

/-- strings.Split(s, "/"). -/
def splitSlash : Str → List Str
  | [] => [[]]
  | c :: rest =>
    match splitSlash rest with
    | [] => [[]]
    | s :: ss => if c = '/' then [] :: s :: ss else (c :: s) :: ss

/-- strings.Join(parts, "/"). -/
def joinSlash : List Str → Str
  | [] => []
  | [s] => s
  | s :: rest => s ++ '/' :: joinSlash rest

/-- uniqueStrings from main.go: keep the first occurrence of each string. -/
def uniqueAux (seen : List Str) : List Str → List Str
  | [] => []
  | x :: rest => if x ∈ seen then uniqueAux seen rest else x :: uniqueAux (x :: seen) rest

def uniqueStrings (l : List Str) : List Str := uniqueAux [] l

/-- The ancestor-emission loop of run: for i := range subPkgs it appends
strings.Join(subPkgs[0:i+1], "/"), i.e. every non-empty prefix of the
segment list, the package itself included. -/
def prefixJoins (pkg : Str) : List Str :=
  (List.range (splitSlash pkg).length).map (fun i => joinSlash ((splitSlash pkg).take (i + 1)))

/-- The full-set derivation of run: append each package's prefix joins to
the filter set, then deduplicate. -/
def fullSet (filterPkgs : List Str) : List Str :=
  uniqueStrings (filterPkgs ++ filterPkgs.flatMap prefixJoins)

/-- The ordered full set produced by run from the deduplicated arguments:
derive ancestors, deduplicate, sort case-insensitively. -/
def resolvePkgs (args : List Str) : List Str :=
  sortPkgs (fullSet (uniqueStrings args))

/-- Spec-side notion: a is a strict path-prefix ancestor of p. -/
def isStrictAncestorOf (a p : Str) : Prop :=
  ∃ k, 0 < k ∧ k < (splitSlash p).length ∧ a = joinSlash ((splitSlash p).take k)

/-- The shared-segment count computed by the writeIndex loop: it walks
every index of the current identifier's split and counts the positions
that also exist in the previous split and compare equal after ToLower —
it does not stop at the first mismatch. -/
def codeShared (lastSplit curSplit : List Str) : Nat :=
  (List.range curSplit.length).countP
    (fun i => decide (i < lastSplit.length) &&
      (lowerStr (lastSplit.getD i []) == lowerStr (curSplit.getD i [])))

/-- Spec-side formulation: count the aligned positions of the two splits
whose segments are equal case-insensitively. -/
def matchingSegments (lastSplit curSplit : List Str) : Nat :=
  ((lastSplit.zip curSplit).filter (fun ab => lowerStr ab.1 == lowerStr ab.2)).length

/-- The count the claim describes: equal leading segments only. -/
def leadingShared : List Str → List Str → Nat
  | a :: as, b :: bs => if lowerStr a = lowerStr b then leadingShared as bs + 1 else 0
  | _, _ => 0

structure IndexRow where
  padding : Nat
  label : Str
  pkg : Str
  linked : Bool
deriving DecidableEq

/-- A writeIndex exclusion entry matches a package exactly or as a path
prefix (pkg == e or strings.HasPrefix(pkg, e + "/")). -/
def excludedPkg (entries : List Str) (pkg : Str) : Bool :=
  entries.any (fun e => pkg == e || (e ++ ['/']).isPrefixOf pkg)

/-- The writeIndex row loop: excluded packages are skipped before any
state update, and the padding and lastPkg state carries across rows. -/
def indexRowsAux (excl filter : List Str) : Str → Nat → List Str → List IndexRow
  | _, _, [] => []
  | lastPkg, padding, pkg :: rest =>
    if excludedPkg excl pkg then indexRowsAux excl filter lastPkg padding rest
    else
      let st :=
        if lastPkg ≠ [] then
          let sh := codeShared (splitSlash lastPkg) (splitSlash pkg)
          (sh * 20, joinSlash ((splitSlash pkg).drop sh))
        else (padding, pkg)
      { padding := st.1, label := st.2, pkg := pkg, linked := filter.contains pkg } ::
        indexRowsAux excl filter pkg st.1 rest

def indexRows (excl filter pkgs : List Str) : List IndexRow :=
  indexRowsAux excl filter [] 0 pkgs

/-- The same loop with the spec-side positional match count. -/
def specRowsAux (excl filter : List Str) : Str → Nat → List Str → List IndexRow
  | _, _, [] => []
  | lastPkg, padding, pkg :: rest =>
    if excludedPkg excl pkg then specRowsAux excl filter lastPkg padding rest
    else
      let st :=
        if lastPkg ≠ [] then
          let sh := matchingSegments (splitSlash lastPkg) (splitSlash pkg)
          (sh * 20, joinSlash ((splitSlash pkg).drop sh))
        else (padding, pkg)
      { padding := st.1, label := st.2, pkg := pkg, linked := filter.contains pkg } ::
        specRowsAux excl filter pkg st.1 rest

def specRows (excl filter pkgs : List Str) : List IndexRow :=
  specRowsAux excl filter [] 0 pkgs

/-- Go path.Base: strip trailing slashes, then take the part after the
last slash; the empty path gives "." and an all-slash path gives "/". -/
def pathBase (s : Str) : Str :=
  if s = [] then ['.']
  else
    let s1 := (s.reverse.dropWhile (fun c => c == '/')).reverse
    if s1 = [] then ['/']
    else (s1.reverse.takeWhile (fun c => c != '/')).reverse

/-- strings.IndexRune: the index of the first occurrence of a character,
none when absent. -/
def idxOfChar (c : Char) : Str → Option Nat
  | [] => none
  | d :: rest => if d = c then some 0 else (idxOfChar c rest).map (fun i => i + 1)

/-- The suffix-aware insertion of updatePage: insert before the first
'?', else before the first '#', else append at the end. -/
def insertHtmlAt (ins href : Str) : Str :=
  match idxOfChar '?' href with
  | some q => href.take q ++ ins ++ href.drop q
  | none =>
    match idxOfChar '#' href with
    | some hpos => href.take hpos ++ ins ++ href.drop hpos
    | none => href ++ ins

/-- The anchor rewrite of updatePage for each href beginning with /src/
or /pkg/: append .html when the final path segment contains a dot, else
/index.html when index-linking is on; then strip the 4-character /pkg
prefix when still present, and splice basePath over the leading '/'. -/
def rewriteHref (linkIndex : Bool) (basePath href : Str) : Str :=
  if ("/src/".data.isPrefixOf href || "/pkg/".data.isPrefixOf href) then
    let href1 :=
      if (pathBase href).contains '.' then insertHtmlAt (".html".data) href
      else if linkIndex then insertHtmlAt ("/index.html".data) href
      else href
    let href2 := if "/pkg/".data.isPrefixOf href1 then href1.drop 4 else href1
    basePath ++ href2.drop 1
  else href

/-- Spec-side: the index where an href's '?query' or '#fragment' suffix
starts ('?' takes precedence as in a URL), or the length if neither. -/
def suffixStart (href : Str) : Nat :=
  match idxOfChar '?' href with
  | some q => q
  | none =>
    match idxOfChar '#' href with
    | some hpos => hpos
    | none => href.length

/-- Spec-side: insert a string immediately before the suffix. -/
def specInsertBeforeSuffix (ins href : Str) : Str :=
  href.take (suffixStart href) ++ ins ++ href.drop (suffixStart href)

/-- Spec-side rewrite, following the claim's wording: .html is appended
exactly when the final path segment contains a literal dot, immediately
before any query or fragment suffix; else /index.html under
index-linking; the /pkg prefix of the original href is stripped; the
basePath replaces the leading slash. -/
def specRewriteHref (linkIndex : Bool) (basePath href : Str) : Str :=
  let core :=
    if (pathBase href).contains '.' then specInsertBeforeSuffix (".html".data) href
    else if linkIndex then specInsertBeforeSuffix ("/index.html".data) href
    else href
  let stripped := if "/pkg/".data.isPrefixOf href then core.drop 4 else core
  basePath ++ stripped.drop 1

/-- The phase-2 extra rewrite applied to anchors of the first layout
region: append .html unless the href already ends in '.', '/' or
'.html'; the href's prefix is never consulted. -/
def srcLinkFix (href : Str) : Str :=
  if !(['.'].isSuffixOf href) && !(['/'].isSuffixOf href) && !(".html".data.isSuffixOf href)
  then href ++ ".html".data else href

/-! ### The HTML tree model for the page transformer -/

mutual
inductive HNode where
  | elem (tag : Str) (attrs : List (Str × Str)) (children : HForest)
  | text (s : Str)
  | comment (s : Str)
deriving DecidableEq
inductive HForest where
  | nil
  | cons (n : HNode) (f : HForest)
deriving DecidableEq
end

/-- Build a forest from a list of nodes. -/
def ofList : List HNode → HForest
  | [] => HForest.nil
  | n :: rest => HForest.cons n (ofList rest)

/-- Forest concatenation. -/
def catF : HForest → HForest → HForest
  | HForest.nil, g => g
  | HForest.cons n f, g => HForest.cons n (catF f g)

/-- The value of the first attribute with the given key. -/
def getAttr (k : Str) (attrs : List (Str × Str)) : Option Str :=
  (attrs.find? (fun a => a.1 == k)).map (fun a => a.2)

/-- goquery SetAttr: replace the value of an existing attribute or
append a new one. -/
def setAttrVal (k v : Str) : List (Str × Str) → List (Str × Str)
  | [] => [(k, v)]
  | a :: rest => if a.1 == k then (k, v) :: rest else a :: setAttrVal k v rest

/-- strings.Split on spaces, for class attribute values. -/
def splitSpace : Str → List Str
  | [] => [[]]
  | c :: rest =>
    match splitSpace rest with
    | [] => [[]]
    | s :: ss => if c = ' ' then [] :: s :: ss else (c :: s) :: ss

/-- goquery HasClass: the class attribute, split on whitespace, contains
the named class. -/
def hasClass (cls : Str) (attrs : List (Str × Str)) : Bool :=
  match getAttr ("class".data) attrs with
  | none => false
  | some v => (splitSpace v).contains cls

/-- goquery RemoveClass: drop the named class from the class list; an
emptied class attribute is removed. -/
def removeClassAttr (cls : Str) (attrs : List (Str × Str)) : List (Str × Str) :=
  match getAttr ("class".data) attrs with
  | none => attrs
  | some v =>
    let remaining := ((splitSpace v).filter (fun c => !(c == cls))).filter (fun c => !(c == []))
    if remaining = [] then attrs.filter (fun a => !(a.1 == "class".data))
    else setAttrVal ("class".data) (joinSlash remaining) attrs

/-- Remove every element with the given tag, subtree included
(doc.Find(tag).Remove()). -/
def rmTag (t : Str) : HForest → HForest
  | HForest.nil => HForest.nil
  | HForest.cons (HNode.elem tag attrs ch) rest =>
    if tag = t then rmTag t rest
    else HForest.cons (HNode.elem tag attrs (rmTag t ch)) (rmTag t rest)
  | HForest.cons (HNode.text s) rest => HForest.cons (HNode.text s) (rmTag t rest)
  | HForest.cons (HNode.comment s) rest => HForest.cons (HNode.comment s) (rmTag t rest)

/-- Append the given node to the children of every head element
(doc.Find("head").AppendNodes(linkTag)). -/
def appHeads (L : HNode) : HForest → HForest
  | HForest.nil => HForest.nil
  | HForest.cons (HNode.elem tag attrs ch) rest =>
    HForest.cons
      (HNode.elem tag attrs
        (if tag = "head".data then catF (appHeads L ch) (HForest.cons L HForest.nil)
         else appHeads L ch))
      (appHeads L rest)
  | HForest.cons (HNode.text s) rest => HForest.cons (HNode.text s) (appHeads L rest)
  | HForest.cons (HNode.comment s) rest => HForest.cons (HNode.comment s) (appHeads L rest)

/-- Set the children of the first element with id "topbar" in document
order (doc.Find("#topbar").First().SetHtml(...)); the Bool reports
whether a topbar was found. -/
def setTB (N : HForest) : HForest → HForest × Bool
  | HForest.nil => (HForest.nil, false)
  | HForest.cons (HNode.elem tag attrs ch) rest =>
    if getAttr ("id".data) attrs = some ("topbar".data) then
      (HForest.cons (HNode.elem tag attrs N) rest, true)
    else if (setTB N ch).2 then
      (HForest.cons (HNode.elem tag attrs (setTB N ch).1) rest, true)
    else
      (HForest.cons (HNode.elem tag attrs ch) (setTB N rest).1, (setTB N rest).2)
  | HForest.cons (HNode.text s) rest =>
    (HForest.cons (HNode.text s) (setTB N rest).1, (setTB N rest).2)
  | HForest.cons (HNode.comment s) rest =>
    (HForest.cons (HNode.comment s) (setTB N rest).1, (setTB N rest).2)

/-- The stylesheet link node inserted by updatePage. -/
def linkNode (bp : Str) : HNode :=
  HNode.elem ("link".data)
    [("type".data, "text/css".data), ("rel".data, "stylesheet".data),
     ("href".data, bp ++ "lib/style.css".data)] HForest.nil

/-- The markup produced by topBar, as parsed nodes: a container div with
two heading divs, a comment and the menu div, all linking to
basePath (+ "index.html" under index-linking). -/
def topBarNodes (linkIndex : Bool) (bp siteName : Str) : HForest :=
  let target := bp ++ (if linkIndex then "index.html".data else [])
  ofList
    [HNode.elem ("div".data) [("class".data, "container".data)] (ofList
      [HNode.text ['\n'],
       HNode.elem ("div".data)
         [("class".data, "top-heading".data), ("id".data, "heading-wide".data)]
         (ofList [HNode.elem ("a".data) [("href".data, target)] (ofList [HNode.text siteName])]),
       HNode.text ['\n'],
       HNode.elem ("div".data)
         [("class".data, "top-heading".data), ("id".data, "heading-narrow".data)]
         (ofList [HNode.elem ("a".data) [("href".data, target)] (ofList [HNode.text siteName])]),
       HNode.text ['\n'],
       HNode.comment ("<a href=# id=menu-button><span id=menu-button-arrow>arrow</span></a>".data),
       HNode.text ['\n'],
       HNode.elem ("div".data) [("id".data, "menu".data)] (ofList
         [HNode.text ['\n'],
          HNode.elem ("a".data) [("href".data, target), ("style".data, "margin-right: 10px;".data)]
            (ofList [HNode.text ("Packages".data)]),
          HNode.text ['\n']]),
       HNode.text ['\n']])]

/-- Rules 1-3 of updatePage: remove all link and script elements, append
the stylesheet link to every head, regenerate the first topbar. -/
def headNavRules (linkIndex : Bool) (bp siteName : Str) (d : HForest) : HForest :=
  (setTB (topBarNodes linkIndex bp siteName)
    (appHeads (linkNode bp) (rmTag ("script".data) (rmTag ("link".data) d)))).1

/-- No element anywhere in the forest carries the given tag. -/
def noTagF (t : Str) : HForest → Bool
  | HForest.nil => true
  | HForest.cons (HNode.elem tag _ ch) rest => !(tag == t) && noTagF t ch && noTagF t rest
  | HForest.cons (HNode.text _) rest => noTagF t rest
  | HForest.cons (HNode.comment _) rest => noTagF t rest

/-! ### The disclosure-widget (toggle) transform -/

/-- Document-order snapshot of the descendant divs with class
"collapsed", nested ones included (the Find("div") Each loop). -/
def collapsedDivs : HForest → List HNode
  | HForest.nil => []
  | HForest.cons (HNode.elem tag attrs ch) rest =>
    (if tag == "div".data && hasClass ("collapsed".data) attrs
     then [HNode.elem tag attrs ch] else []) ++ collapsedDivs ch ++ collapsedDivs rest
  | HForest.cons _ rest => collapsedDivs rest

/-- The children of the first descendant span with class "text"
(Find("span.text").First()); none when absent. -/
def firstSpanText : HForest → Option HForest
  | HForest.nil => none
  | HForest.cons (HNode.elem tag attrs ch) rest =>
    if tag == "span".data && hasClass ("text".data) attrs then some ch
    else
      match firstSpanText ch with
      | some r => some r
      | none => firstSpanText rest
  | HForest.cons _ rest => firstSpanText rest

/-- The summary left behind by the Each loop over collapsed divs: the
last collapsed div in document order determines it (the markup of its
first span.text, or nothing when it has none); with no collapsed div the
summary variable keeps its empty zero value. -/
def toggleSummary (ch : HForest) : HForest :=
  match (collapsedDivs ch).getLast? with
  | none => HForest.nil
  | some (HNode.elem _ _ dch) => (firstSpanText dch).getD HForest.nil
  | some _ => HForest.nil

/-- Remove every descendant div with class "collapsed", subtree
included. -/
def removeCollapsed : HForest → HForest
  | HForest.nil => HForest.nil
  | HForest.cons (HNode.elem tag attrs ch) rest =>
    if tag == "div".data && hasClass ("collapsed".data) attrs then removeCollapsed rest
    else HForest.cons (HNode.elem tag attrs (removeCollapsed ch)) (removeCollapsed rest)
  | HForest.cons n rest => HForest.cons n (removeCollapsed rest)

/-- Remove every descendant carrying class "toggleButton"
(selection.Find(".toggleButton").Remove()). -/
def removeToggleButtons : HForest → HForest
  | HForest.nil => HForest.nil
  | HForest.cons (HNode.elem tag attrs ch) rest =>
    if hasClass ("toggleButton".data) attrs then removeToggleButtons rest
    else HForest.cons (HNode.elem tag attrs (removeToggleButtons ch)) (removeToggleButtons rest)
  | HForest.cons n rest => HForest.cons n (removeToggleButtons rest)

/-- The fallback string the code substitutes only when goquery's Html()
call returns an error. -/
def placeholderSummary : Str := "Summary not available".data

/-- The per-element disclosure-widget transform of updatePage: on a div
with class "toggle", extract and remove the collapsed summaries, remove
the toggle buttons, prepend a summary element, drop the toggle class and
retag the element as details; every other node is untouched. -/
def toggleTransform (n : HNode) : HNode :=
  match n with
  | HNode.elem tag attrs ch =>
    if tag == "div".data && hasClass ("toggle".data) attrs then
      HNode.elem ("details".data) (removeClassAttr ("toggle".data) attrs)
        (HForest.cons (HNode.elem ("summary".data) [] (toggleSummary ch))
          (removeToggleButtons (removeCollapsed ch)))
    else HNode.elem tag attrs ch
  | n => n

/-- Whether some text node in the forest equals the given string. -/
def containsText (s : Str) : HForest → Bool
  | HForest.nil => false
  | HForest.cons (HNode.elem _ _ ch) rest => containsText s ch || containsText s rest
  | HForest.cons (HNode.text t) rest => (t == s) || containsText s rest
  | HForest.cons _ rest => containsText s rest

/-! ### The phase-2 layout-region anchor pass -/

/-- The body of the phase-2 anchor loop on an anchor's attributes: read
href (empty when absent) and set it with .html appended unless it ends
in '.', '/' or '.html'. -/
def fixAnchorAttrs (attrs : List (Str × Str)) : List (Str × Str) :=
  let href := (getAttr ("href".data) attrs).getD []
  if !(['.'].isSuffixOf href) && !(['/'].isSuffixOf href) && !(".html".data.isSuffixOf href)
  then setAttrVal ("href".data) (href ++ ".html".data) attrs else attrs

/-- Apply the anchor fix to every anchor element of a forest. -/
def fixAnchors : HForest → HForest
  | HForest.nil => HForest.nil
  | HForest.cons (HNode.elem tag attrs ch) rest =>
    HForest.cons
      (HNode.elem tag (if tag == "a".data then fixAnchorAttrs attrs else attrs) (fixAnchors ch))
      (fixAnchors rest)
  | HForest.cons n rest => HForest.cons n (fixAnchors rest)

/-- Rewrite the anchors inside the first element with class "layout" in
document order (doc.Find(".layout").First().Find("a").Each(...)). -/
def layoutPassAux : HForest → HForest × Bool
  | HForest.nil => (HForest.nil, false)
  | HForest.cons (HNode.elem tag attrs ch) rest =>
    if hasClass ("layout".data) attrs then
      (HForest.cons (HNode.elem tag attrs (fixAnchors ch)) rest, true)
    else
      match layoutPassAux ch with
      | (ch1, true) => (HForest.cons (HNode.elem tag attrs ch1) rest, true)
      | (_, false) =>
        match layoutPassAux rest with
        | (rest1, f) => (HForest.cons (HNode.elem tag attrs ch) rest1, f)
  | HForest.cons n rest =>
    match layoutPassAux rest with
    | (rest1, f) => (HForest.cons n rest1, f)

def layoutPass (d : HForest) : HForest := (layoutPassAux d).1

/-! ### The backend poll loop (phase 1 of the multi-module variant) -/

inductive FetchOutcome where
  | netErr
  | ok (body : Str)

/-- The scan-incomplete marker string from the source. -/
def scanIncomplete : Str :=
  "<span class=\"alert\" style=\"font-size:120%\">Scan is not yet complete.".data

/-- bytes.Contains: the needle occurs as a contiguous run of the hay. -/
def containsSub (needle : Str) : Str → Bool
  | [] => needle == []
  | c :: rest => needle.isPrefixOf (c :: rest) || containsSub needle rest

/-- The backend poll loop over a trace of attempt outcomes: a network
error retries immediately, a body containing the scan-incomplete marker
is discarded after a 25 millisecond sleep, any other body is parsed and
returned; the result pairs the milliseconds slept with the returned body
(none when the trace is exhausted with the loop still retrying). -/
def pollLoop : List FetchOutcome → Nat × Option Str
  | [] => (0, none)
  | FetchOutcome.netErr :: rest => pollLoop rest
  | FetchOutcome.ok body :: rest =>
    if containsSub scanIncomplete body then
      ((pollLoop rest).1 + 25, (pollLoop rest).2)
    else (0, some body)

/-! ### The phase-1 deadline race -/

inductive WorkerMsg where
  | pageErr (pkg msg : Str)
  | mkdirErr (dir msg : Str)
  | renderErr (msg : Str)
  | writeErr (pkg msg : Str)
  | completed

/-- The message each phase-1 outcome sends on the done channel (none for
clean completion). -/
def workerMsgText : WorkerMsg → Option Str
  | WorkerMsg.pageErr pkg msg => some ("failed to get page of ".data ++ (pkg ++ (": ".data ++ msg)))
  | WorkerMsg.mkdirErr dir msg =>
    some ("failed to make directory ".data ++ (dir ++ (": ".data ++ msg)))
  | WorkerMsg.renderErr msg => some ("failed to render HTML: ".data ++ msg)
  | WorkerMsg.writeErr pkg msg =>
    some ("failed to write docs for ".data ++ (pkg ++ (": ".data ++ msg)))
  | WorkerMsg.completed => none

/-- The error returned when the 15-second timer wins the select. -/
def timeoutError : Str := "godoc failed to start in time".data

/-- The select at the end of phase 1: none models the timer firing
before the worker signals; a worker error is wrapped; completion yields
success. -/
def phase1Select (raceResult : Option WorkerMsg) : Except Str Unit :=
  match raceResult with
  | none => Except.error timeoutError
  | some m =>
    match workerMsgText m with
    | none => Except.ok ()
    | some e => Except.error ("failed to copy docs: ".data ++ e)

/-- The unbounded retry loop around http.Get (the worker breaks out of
it only on a successful response): within fuel attempts the loop has
broken out iff some attempt succeeded. -/
def getLoopBroke (responded : Nat → Bool) (fuel : Nat) : Bool :=
  (List.range fuel).any responded

/-- Rules 1 of updatePage seen as one cleaner: remove links then
scripts. -/
def cleanLS (f : HForest) : HForest :=
  rmTag ("script".data) (rmTag ("link".data) f)

theorem splitSlash_ne_nil (s : Str) : splitSlash s ≠ [] := by
  cases s with
  | nil => simp [splitSlash]
  | cons c rest =>
    simp only [splitSlash]
    rcases h : splitSlash rest with _ | ⟨t, ts⟩
    · simp
    · by_cases hc : c = '/' <;> simp [hc]

-- Round trip: joining the slash-split of a string gives it back.

theorem joinSlash_splitSlash (s : Str) : joinSlash (splitSlash s) = s := by
  induction s with
  | nil => rfl
  | cons c rest ih =>
    rcases h : splitSlash rest with _ | ⟨t, ts⟩
    · exact absurd h (splitSlash_ne_nil rest)
    · rw [h] at ih
      by_cases hc : c = '/'
      · subst hc
        simp only [splitSlash, h, if_pos rfl]
        cases ts <;> simp [joinSlash] at ih ⊢ <;> simp [ih]
      · simp only [splitSlash, h, if_neg hc]
        cases ts <;> simp [joinSlash] at ih ⊢ <;> simp [ih]

theorem mem_uniqueAux {x : Str} :
    ∀ (l seen : List Str), x ∈ uniqueAux seen l ↔ x ∈ l ∧ x ∉ seen := by
  intro l
  induction l with
  | nil => intro seen; simp [uniqueAux]
  | cons y rest ih =>
    intro seen
    by_cases hy : y ∈ seen
    · rw [uniqueAux, if_pos hy, ih]
      constructor
      · rintro ⟨h1, h2⟩; exact ⟨List.mem_cons_of_mem _ h1, h2⟩
      · rintro ⟨h1, h2⟩
        rcases List.mem_cons.mp h1 with rfl | h1
        · exact absurd hy h2
        · exact ⟨h1, h2⟩
    · rw [uniqueAux, if_neg hy, List.mem_cons, ih]
      constructor
      · rintro (rfl | ⟨h1, h2⟩)
        · exact ⟨List.mem_cons_self _ _, hy⟩
        · exact ⟨List.mem_cons_of_mem _ h1, fun hs => h2 (List.mem_cons_of_mem _ hs)⟩
      · rintro ⟨h1, h2⟩
        rcases List.mem_cons.mp h1 with rfl | h1
        · exact Or.inl rfl
        · by_cases hxy : x = y
          · exact Or.inl hxy
          · exact Or.inr ⟨h1, fun hs => by
              rcases List.mem_cons.mp hs with h | h
              · exact hxy h
              · exact h2 h⟩

theorem nodup_uniqueAux : ∀ (l seen : List Str), (uniqueAux seen l).Nodup := by
  intro l
  induction l with
  | nil => intro seen; simp [uniqueAux]
  | cons y rest ih =>
    intro seen
    by_cases hy : y ∈ seen
    · rw [uniqueAux, if_pos hy]; exact ih seen
    · rw [uniqueAux, if_neg hy]
      refine List.nodup_cons.mpr ⟨fun hmem => ?_, ih _⟩
      exact ((mem_uniqueAux _ _).mp hmem).2 (List.mem_cons_self _ _)

theorem self_mem_prefixJoins (p : Str) : p ∈ prefixJoins p := by
  have hlen : 0 < (splitSlash p).length := List.length_pos.mpr (splitSlash_ne_nil p)
  simp only [prefixJoins, List.mem_map, List.mem_range]
  refine ⟨(splitSlash p).length - 1, by omega, ?_⟩
  rw [(by omega : (splitSlash p).length - 1 + 1 = (splitSlash p).length),
    List.take_length, joinSlash_splitSlash]

theorem mem_prefixJoins {x p : Str} :
    x ∈ prefixJoins p ↔ isStrictAncestorOf x p ∨ x = p := by
  constructor
  · intro hx
    simp only [prefixJoins, List.mem_map, List.mem_range] at hx
    obtain ⟨i, hi, hx⟩ := hx
    by_cases h : i + 1 = (splitSlash p).length
    · right
      rw [← hx, h, List.take_length, joinSlash_splitSlash]
    · exact Or.inl ⟨i + 1, Nat.succ_pos i, lt_of_le_of_ne (Nat.succ_le_of_lt hi) h, hx.symm⟩
  · rintro (⟨k, hk0, hkn, hx⟩ | rfl)
    · simp only [prefixJoins, List.mem_map, List.mem_range]
      refine ⟨k - 1, by omega, ?_⟩
      rw [hx]; congr 2; omega
    · exact self_mem_prefixJoins x

/-- C6: the derived full set is the filter set united with every strict
path-prefix ancestor of every filter-set member, with no duplicates. -/
theorem c6_fullSet_ancestors (fp : List Str) :
    (fullSet fp).Nodup ∧
      ∀ x, x ∈ fullSet fp ↔ x ∈ fp ∨ ∃ p ∈ fp, isStrictAncestorOf x p := by
  refine ⟨nodup_uniqueAux _ _, fun x => ?_⟩
  rw [fullSet, uniqueStrings, mem_uniqueAux]
  simp only [List.not_mem_nil, not_false_iff, and_true, List.mem_append, List.mem_flatMap]
  constructor
  · rintro (h | ⟨p, hp, hpj⟩)
    · exact Or.inl h
    · rcases mem_prefixJoins.mp hpj with h | rfl
      · exact Or.inr ⟨p, hp, h⟩
      · exact Or.inl hp
  · rintro (h | ⟨p, hp, h⟩)
    · exact Or.inl h
    · exact Or.inr ⟨p, hp, mem_prefixJoins.mpr (Or.inl h)⟩

theorem lexLt_antisymm : ∀ {a b : Str}, lexLt a b = false → lexLt b a = false → a = b
  | [], [], _, _ => rfl
  | [], _ :: _, h1, _ => by simp [lexLt] at h1
  | _ :: _, [], _, h2 => by simp [lexLt] at h2
  | a :: as, b :: bs, h1, h2 => by
    by_cases hab : a = b
    · subst hab
      rw [lexLt, if_pos rfl] at h1
      rw [lexLt, if_pos rfl] at h2
      rw [lexLt_antisymm h1 h2]
    · rw [lexLt, if_neg hab] at h1
      rw [lexLt, if_neg (fun h => hab h.symm)] at h2
      simp only [decide_eq_false_iff_not] at h1 h2
      exact absurd (lt_trichotomy a b) (by simp [hab, h1, h2])

theorem lexLt_total (a b : Str) : lexLt a b = false ∨ lexLt b a = false := by
  by_cases h1 : lexLt a b = false
  · exact Or.inl h1
  · by_cases h2 : lexLt b a = false
    · exact Or.inr h2
    · rw [Bool.not_eq_false] at h1 h2
      -- both true is impossible
      exfalso
      have : ∀ (x y : Str), lexLt x y = true → lexLt y x = true → False := by
        intro x
        induction x with
        | nil => intro y hx hy; cases y <;> simp [lexLt] at hx hy
        | cons c cs ih =>
          intro y hx hy
          cases y with
          | nil => simp [lexLt] at hx
          | cons d ds =>
            by_cases hcd : c = d
            · subst hcd
              rw [lexLt, if_pos rfl] at hx
              rw [lexLt, if_pos rfl] at hy
              exact ih ds hx hy
            · rw [lexLt, if_neg hcd] at hx
              rw [lexLt, if_neg (fun h => hcd h.symm)] at hy
              simp only [decide_eq_true_eq] at hx hy
              exact lt_asymm hx hy
      exact this a b h1 h2

theorem insertSorted_perm (x : Str) :
    ∀ (l : List Str), (insertSorted x l).Perm (x :: l)
  | [] => List.Perm.refl _
  | y :: ys => by
    rw [insertSorted]
    by_cases h : lessPkg y x = true
    · rw [if_pos h]
      exact ((insertSorted_perm x ys).cons y).trans (List.Perm.swap x y ys)
    · rw [if_neg h]

theorem sortPkgs_perm : ∀ (l : List Str), (sortPkgs l).Perm l
  | [] => List.Perm.refl _
  | x :: xs => (insertSorted_perm x (sortPkgs xs)).trans ((sortPkgs_perm xs).cons x)

-- Not-less-than is transitive for the byte-wise comparison.

theorem lexLt_le_trans : ∀ (u v w : Str),
    lexLt u v = false → lexLt v w = false → lexLt u w = false
  | u, _, [], _, _ => by rw [lexLt.eq_def]; cases u <;> rfl
  | [], v, d :: ds, h1, h2 => by
    cases v with
    | nil => simp [lexLt] at h2
    | cons c cs => simp [lexLt] at h1
  | a :: as, v, d :: ds, h1, h2 => by
    cases v with
    | nil => simp [lexLt] at h2
    | cons c cs =>
      by_cases hac : a = c
      · subst hac
        rw [lexLt, if_pos rfl] at h1
        by_cases had : a = d
        · subst had
          rw [lexLt, if_pos rfl] at h2 ⊢
          exact lexLt_le_trans as cs ds h1 h2
        · rw [lexLt, if_neg had] at h2 ⊢
          exact h2
      · rw [lexLt, if_neg hac] at h1
        simp only [decide_eq_false_iff_not] at h1
        have hca : c < a := by
          rcases lt_trichotomy a c with h | h | h
          · exact absurd h h1
          · exact absurd h hac
          · exact h
        have hda : d < a := by
          by_cases hcd : c = d
          · exact hcd ▸ hca
          · rw [lexLt, if_neg hcd] at h2
            simp only [decide_eq_false_iff_not] at h2
            have hdc : d < c := by
              rcases lt_trichotomy c d with h | h | h
              · exact absurd h h2
              · exact absurd h hcd
              · exact h
            exact lt_trans hdc hca
        rw [lexLt, if_neg (ne_of_gt hda)]
        simp only [decide_eq_false_iff_not]
        exact fun h => lt_asymm hda h

theorem insertSorted_sorted (x : Str) :
    ∀ (l : List Str), l.Pairwise (fun a b => lessPkg b a = false) →
      (insertSorted x l).Pairwise (fun a b => lessPkg b a = false)
  | [], _ => List.pairwise_singleton _ _
  | y :: ys, h => by
    rw [List.pairwise_cons] at h
    rw [insertSorted]
    by_cases hyx : lessPkg y x = true
    · rw [if_pos hyx]
      rw [List.pairwise_cons]
      refine ⟨fun b hb => ?_, insertSorted_sorted x ys h.2⟩
      rcases List.mem_cons.mp ((insertSorted_perm x ys).mem_iff.mp hb) with rfl | hb
      · rcases lexLt_total (lowerStr b) (lowerStr y) with h1 | h1
        · exact h1
        · exact absurd hyx (by simp [lessPkg, h1])
      · exact h.1 b hb
    · rw [if_neg hyx]
      rw [List.pairwise_cons]
      rw [Bool.not_eq_true] at hyx
      refine ⟨fun b hb => ?_, List.pairwise_cons.mpr h⟩
      rcases List.mem_cons.mp hb with rfl | hb
      · exact hyx
      · exact lexLt_le_trans (lowerStr b) (lowerStr y) (lowerStr x) (h.1 b hb) hyx

theorem sortPkgs_sorted : ∀ (l : List Str),
    (sortPkgs l).Pairwise (fun a b => lessPkg b a = false)
  | [] => List.Pairwise.nil
  | x :: xs => insertSorted_sorted x (sortPkgs xs) (sortPkgs_sorted xs)

theorem sorted_perm_unique : ∀ (l₁ l₂ : List Str), l₁.Perm l₂ →
    l₁.Pairwise (fun a b => lessPkg b a = false) →
    l₂.Pairwise (fun a b => lessPkg b a = false) →
    (∀ a ∈ l₁, ∀ b ∈ l₁, lowerStr a = lowerStr b → a = b) →
    l₁ = l₂
  | [], l₂, hp, _, _, _ => by
    rw [List.Perm.eq_nil hp.symm]
  | a :: t₁, [], hp, _, _, _ => by
    exact absurd (List.Perm.eq_nil hp) (by simp)
  | a :: t₁, b :: t₂, hp, hs₁, hs₂, hinj => by
    have hab : a = b := by
      by_cases h : a = b
      · exact h
      · have hbmem : b ∈ a :: t₁ := hp.symm.subset (List.mem_cons_self _ _)
        have hb₁ : b ∈ t₁ := by
          rcases List.mem_cons.mp hbmem with h' | h'
          · exact absurd h'.symm h
          · exact h'
        have hba : lessPkg b a = false := (List.pairwise_cons.mp hs₁).1 b hb₁
        have hamem : a ∈ b :: t₂ := hp.subset (List.mem_cons_self _ _)
        have hab' : lessPkg a b = false := by
          rcases List.mem_cons.mp hamem with h' | h'
          · exact absurd h' h
          · exact (List.pairwise_cons.mp hs₂).1 a h'
        exact hinj a (List.mem_cons_self _ _) b hbmem (lexLt_antisymm hba hab').symm
    subst hab
    have htail := sorted_perm_unique t₁ t₂ hp.cons_inv
      (List.pairwise_cons.mp hs₁).2 (List.pairwise_cons.mp hs₂).2
      (fun x hx y hy => hinj x (List.mem_cons_of_mem _ hx) y (List.mem_cons_of_mem _ hy))
    rw [htail]

/-- C7 (amended): the sorted full set is a pure function of the set's
contents provided no two distinct identifiers compare equal under
case-insensitive comparison: permuted inputs sort identically. -/
theorem c7_sort_pure_function_of_contents (l₁ l₂ : List Str) (hperm : l₁.Perm l₂)
    (hinj : ∀ a ∈ l₁, ∀ b ∈ l₁, lowerStr a = lowerStr b → a = b) :
    sortPkgs l₁ = sortPkgs l₂ := by
  apply sorted_perm_unique
  · exact (sortPkgs_perm l₁).trans (hperm.trans (sortPkgs_perm l₂).symm)
  · exact sortPkgs_sorted l₁
  · exact sortPkgs_sorted l₂
  · intro a ha b hb
    exact hinj a ((sortPkgs_perm l₁).subset ha) b ((sortPkgs_perm l₁).subset hb)

/-- Witness for the amended C7 theorem at a concrete input. -/
theorem c7_sort_pure_function_of_contents_witness :
    (["b".data, "a".data] : List Str).Perm ["a".data, "b".data] ∧
      sortPkgs ["b".data, "a".data] = sortPkgs ["a".data, "b".data] :=
  ⟨List.Perm.swap _ _ _,
    c7_sort_pure_function_of_contents _ _ (List.Perm.swap _ _ _) (by decide)⟩

/-- C7 counterexample: two runs of resolution on inputs containing the same
identifiers ("A" and "a", case-variant duplicates) produce different ordered
output, so the sort order is not a pure function of the set's contents. -/
theorem c7_counterexample :
    (["A".data, "a".data] : List Str).Perm ["a".data, "A".data] ∧
      resolvePkgs ["A".data, "a".data] ≠ resolvePkgs ["a".data, "A".data] :=
  ⟨List.Perm.swap _ _ _, by decide⟩

theorem codeShared_eq_matchingSegments :
    ∀ (cs ls : List Str), codeShared ls cs = matchingSegments ls cs := by
  intro cs
  induction cs with
  | nil => intro ls; simp [codeShared, matchingSegments]
  | cons c cs' ih =>
    intro ls
    cases ls with
    | nil =>
      simp [codeShared, matchingSegments]
    | cons a ls' =>
      rw [codeShared]
      simp only [List.length_cons]
      rw [List.range_succ_eq_map, List.countP_cons, List.countP_map]
      rw [matchingSegments, List.zip_cons_cons, List.filter_cons]
      have hrec : (List.range cs'.length).countP
          ((fun i => decide (i < ls'.length + 1) &&
            (lowerStr ((a :: ls').getD i []) == lowerStr ((c :: cs').getD i []))) ∘ Nat.succ) =
          codeShared ls' cs' := by
        rw [codeShared]
        apply List.countP_congr
        intro i _
        simp [Function.comp, Nat.succ_lt_succ_iff]
      rw [hrec, ih ls']
      by_cases h : lowerStr a = lowerStr c
      · simp [h, matchingSegments, Nat.add_comm]
      · simp [h, matchingSegments, beq_iff_eq]

theorem indexRowsAux_eq_specRowsAux (excl filter : List Str) :
    ∀ (pkgs : List Str) (lastPkg : Str) (padding : Nat),
      indexRowsAux excl filter lastPkg padding pkgs =
        specRowsAux excl filter lastPkg padding pkgs := by
  intro pkgs
  induction pkgs with
  | nil => intro lastPkg padding; rfl
  | cons pkg rest ih =>
    intro lastPkg padding
    by_cases h : excludedPkg excl pkg = true
    · rw [indexRowsAux, specRowsAux, if_pos h, if_pos h]
      exact ih lastPkg padding
    · rw [indexRowsAux, specRowsAux, if_neg h, if_neg h]
      rw [codeShared_eq_matchingSegments]
      by_cases hl : lastPkg ≠ []
      · simp only [if_pos hl]
        rw [ih]
      · simp only [if_neg hl]
        rw [ih]

/-- C2 (amended): for every consecutive pair of retained identifiers the
index builder's depth is the number of aligned positions (up to the
shorter split) whose segments are equal case-insensitively — not only
the leading ones — the indentation is that count times 20, and the label
drops that many leading segments; on ["a", "a/b", "a/b/c", "a/x"] the
depths are [0, 1, 2, 1]. -/
theorem c2_depth_positional_matches :
    (∀ excl filter pkgs, indexRows excl filter pkgs = specRows excl filter pkgs) ∧
      (indexRows [[]] ["a".data, "a/b".data, "a/b/c".data, "a/x".data]
          ["a".data, "a/b".data, "a/b/c".data, "a/x".data]).map IndexRow.padding =
        [0, 20, 40, 20] ∧
      (indexRows [[]] ["a".data, "a/b".data, "a/b/c".data, "a/x".data]
          ["a".data, "a/b".data, "a/b/c".data, "a/x".data]).map IndexRow.label =
        ["a".data, "b".data, "c".data, "x".data] :=
  ⟨fun excl filter pkgs => indexRowsAux_eq_specRowsAux excl filter pkgs [] 0,
    by decide, by decide⟩

/-- C2 counterexample: in the genuine sorted ancestor-closed full set
resolved from packages "a.q/c" and "a/c", the consecutive pair
("a.q/c", "a/c") has no equal leading segment (leading count 0), yet the
index builder computes depth 1: the row for "a/c" gets indentation 20
and label "c" instead of the claimed indentation 0 and label "a/c". -/
theorem c2_counterexample :
    resolvePkgs ["a.q/c".data, "a/c".data] =
        ["a".data, "a.q".data, "a.q/c".data, "a/c".data] ∧
      leadingShared (splitSlash ("a.q/c".data)) (splitSlash ("a/c".data)) = 0 ∧
      (indexRows [[]] (resolvePkgs ["a.q/c".data, "a/c".data])
          (resolvePkgs ["a.q/c".data, "a/c".data])).map IndexRow.padding =
        [0, 0, 20, 20] ∧
      ((indexRows [[]] (resolvePkgs ["a.q/c".data, "a/c".data])
          (resolvePkgs ["a.q/c".data, "a/c".data])).map IndexRow.label).getD 3 [] =
        "c".data ∧
      joinSlash ((splitSlash ("a/c".data)).drop
          (leadingShared (splitSlash ("a.q/c".data)) (splitSlash ("a/c".data)))) =
        "a/c".data := by
  decide

theorem excluded_not_in_indexRowsAux :
    ∀ (pkgs excl filter : List Str) (lastPkg : Str) (padding : Nat) (r : IndexRow),
      r ∈ indexRowsAux excl filter lastPkg padding pkgs → excludedPkg excl r.pkg = false := by
  intro pkgs
  induction pkgs with
  | nil => intro excl filter lastPkg padding r hr; simp [indexRowsAux] at hr
  | cons pkg rest ih =>
    intro excl filter lastPkg padding r hr
    rw [indexRowsAux] at hr
    by_cases h : excludedPkg excl pkg = true
    · rw [if_pos h] at hr
      exact ih excl filter lastPkg padding r hr
    · rw [if_neg h] at hr
      rcases List.mem_cons.mp hr with rfl | hr
      · exact Bool.eq_false_iff.mpr h
      · exact ih excl filter pkg _ r hr

/-- C8: an identifier matching a caller-supplied exclusion entry (by exact
path or path-prefix match) contributes no index row at all — in
particular it never appears as a hyperlink target in the generated
index. -/
theorem c8_excluded_never_hyperlinked (excl filter pkgs : List Str) (r : IndexRow)
    (hr : r ∈ indexRows excl filter pkgs) :
    excludedPkg excl r.pkg = false :=
  excluded_not_in_indexRowsAux pkgs excl filter [] 0 r hr

/-- Witness for C8 at a concrete input. -/
theorem c8_excluded_never_hyperlinked_witness :
    (({ padding := 0, label := "a".data, pkg := "a".data, linked := true } : IndexRow) ∈
        indexRows ["x".data] ["a".data] ["a".data]) ∧
      excludedPkg ["x".data] ("a".data) = false :=
  ⟨by decide,
    c8_excluded_never_hyperlinked ["x".data] ["a".data] ["a".data]
      { padding := 0, label := "a".data, pkg := "a".data, linked := true } (by decide)⟩

/-! ### Anchor href rewriting (updatePage rule 4 and the phase-2 pass) -/

theorem cons_append_ne {a b : Char} {as tail bs : List Char} (h : a ≠ b) :
    (a :: as) ++ tail ≠ b :: bs := by
  intro heq
  rw [List.cons_append] at heq
  injection heq with h1 h2
  exact h h1

/-- C4: when the backend never responds, the phase-1 worker never breaks
out of its fetch loop (so never signals), the select takes the timeout
branch once the 15-second timer fires with the "godoc failed to start in
time" error, and that error is distinct from every error a phase-1
fetch, mkdir, render or write failure reports through the done channel,
both as sent and as wrapped by the caller. -/
theorem c4_deadline_timeout_distinct (responded : Nat → Bool)
    (hnever : ∀ n, responded n = false) :
    (∀ fuel, getLoopBroke responded fuel = false) ∧
      phase1Select none = Except.error timeoutError ∧
      (∀ (m : WorkerMsg) (e : Str), workerMsgText m = some e → e ≠ timeoutError) ∧
      (∀ m : WorkerMsg, phase1Select (some m) ≠ Except.error timeoutError) := by
  refine ⟨?_, rfl, ?_, ?_⟩
  · intro fuel
    simp [getLoopBroke, hnever]
  · intro m e heq
    cases m with
    | pageErr pkg msg =>
      simp only [workerMsgText, Option.some.injEq] at heq
      subst heq
      exact cons_append_ne (by decide)
    | mkdirErr dir msg =>
      simp only [workerMsgText, Option.some.injEq] at heq
      subst heq
      exact cons_append_ne (by decide)
    | renderErr msg =>
      simp only [workerMsgText, Option.some.injEq] at heq
      subst heq
      exact cons_append_ne (by decide)
    | writeErr pkg msg =>
      simp only [workerMsgText, Option.some.injEq] at heq
      subst heq
      exact cons_append_ne (by decide)
    | completed => simp [workerMsgText] at heq
  · intro m hcontra
    cases m with
    | pageErr pkg msg =>
      simp only [phase1Select, workerMsgText, Except.error.injEq] at hcontra
      exact cons_append_ne (by decide) hcontra
    | mkdirErr dir msg =>
      simp only [phase1Select, workerMsgText, Except.error.injEq] at hcontra
      exact cons_append_ne (by decide) hcontra
    | renderErr msg =>
      simp only [phase1Select, workerMsgText, Except.error.injEq] at hcontra
      exact cons_append_ne (by decide) hcontra
    | writeErr pkg msg =>
      simp only [phase1Select, workerMsgText, Except.error.injEq] at hcontra
      exact cons_append_ne (by decide) hcontra
    | completed => simp [phase1Select, workerMsgText] at hcontra

/-- Witness for C4: the all-failures response oracle. -/
theorem c4_deadline_timeout_distinct_witness :
    (∀ n : Nat, (fun _ : Nat => false) n = false) ∧
      phase1Select none = Except.error timeoutError ∧
      getLoopBroke (fun _ => false) 100 = false :=
  ⟨fun _ => rfl, (c4_deadline_timeout_distinct (fun _ => false) (fun _ => rfl)).2.1,
    (c4_deadline_timeout_distinct (fun _ => false) (fun _ => rfl)).1 100⟩

/-- C5: the poll loop never returns a body containing the
scan-incomplete marker; a marker body is discarded after a fixed 25
millisecond sleep and retried, a network error retries with no sleep,
and any other body is returned immediately. -/
theorem c5_poll_never_returns_marker :
    (∀ (trace : List FetchOutcome) (body : Str),
        (pollLoop trace).2 = some body → containsSub scanIncomplete body = false) ∧
      (∀ rest, pollLoop (FetchOutcome.netErr :: rest) = pollLoop rest) ∧
      (∀ body rest, containsSub scanIncomplete body = true →
          pollLoop (FetchOutcome.ok body :: rest) =
            ((pollLoop rest).1 + 25, (pollLoop rest).2)) ∧
      (∀ body rest, containsSub scanIncomplete body = false →
          pollLoop (FetchOutcome.ok body :: rest) = (0, some body)) := by
  refine ⟨?_, fun rest => rfl, ?_, ?_⟩
  · intro trace
    induction trace with
    | nil => intro body h; simp [pollLoop] at h
    | cons o rest ih =>
      cases o with
      | netErr => intro body h; exact ih body h
      | ok b =>
        intro body h
        by_cases hm : containsSub scanIncomplete b = true
        · rw [pollLoop, if_pos hm] at h
          exact ih body h
        · rw [pollLoop, if_neg hm] at h
          simp only [Option.some.injEq] at h
          subst h
          exact Bool.eq_false_iff.mpr hm
  · intro body rest hm
    rw [pollLoop, if_pos hm]
  · intro body rest hm
    rw [pollLoop, if_neg (by simp [hm])]

/-- Witness for C5 at a concrete trace. -/
theorem c5_poll_never_returns_marker_witness :
    ((pollLoop [FetchOutcome.ok ("<html>ok</html>".data)]).2 =
        some ("<html>ok</html>".data)) ∧
      containsSub scanIncomplete ("<html>ok</html>".data) = false :=
  ⟨by decide,
    c5_poll_never_returns_marker.1 [FetchOutcome.ok ("<html>ok</html>".data)]
      ("<html>ok</html>".data) (by decide)⟩

theorem removeCollapsed_of_none :
    ∀ (f : HForest), collapsedDivs f = [] → removeCollapsed f = f
  | HForest.nil, _ => rfl
  | HForest.cons (HNode.elem tag attrs ch) rest, h => by
    rw [collapsedDivs] at h
    by_cases hcd : (tag == "div".data && hasClass ("collapsed".data) attrs) = true
    · rw [if_pos hcd] at h
      simp at h
    · rw [if_neg hcd] at h
      simp only [List.nil_append, List.append_eq_nil] at h
      rw [removeCollapsed, if_neg hcd,
        removeCollapsed_of_none ch h.1, removeCollapsed_of_none rest h.2]
  | HForest.cons (HNode.text s) rest, h => by
    simp only [collapsedDivs] at h
    simp only [removeCollapsed]
    rw [removeCollapsed_of_none rest h]
  | HForest.cons (HNode.comment s) rest, h => by
    simp only [collapsedDivs] at h
    simp only [removeCollapsed]
    rw [removeCollapsed_of_none rest h]

theorem toggleSummary_of_none (ch : HForest) (h : collapsedDivs ch = []) :
    toggleSummary ch = HForest.nil := by
  rw [toggleSummary, h]
  rfl

/-- C9 (amended): on a toggle div whose subtree has no collapsed div the
transform still succeeds, and the prepended summary element is empty;
the placeholder is reserved for goquery Html() errors, which a merely
missing summary does not produce. -/
theorem c9_missing_summary_empty (attrs : List (Str × Str)) (ch : HForest)
    (htoggle : hasClass ("toggle".data) attrs = true)
    (hnone : collapsedDivs ch = []) :
    toggleTransform (HNode.elem ("div".data) attrs ch) =
      HNode.elem ("details".data) (removeClassAttr ("toggle".data) attrs)
        (HForest.cons (HNode.elem ("summary".data) [] HForest.nil)
          (removeToggleButtons ch)) := by
  simp only [toggleTransform]
  rw [if_pos (by simp [htoggle]),
    toggleSummary_of_none ch hnone, removeCollapsed_of_none ch hnone]

/-- Witness for the amended C9 theorem at a concrete toggle div. -/
theorem c9_missing_summary_empty_witness :
    hasClass ("toggle".data) [("class".data, "toggle".data)] = true ∧
      collapsedDivs (ofList [HNode.elem ("div".data) [] HForest.nil]) = [] ∧
      toggleTransform (HNode.elem ("div".data) [("class".data, "toggle".data)]
          (ofList [HNode.elem ("div".data) [] HForest.nil])) =
        HNode.elem ("details".data) []
          (HForest.cons (HNode.elem ("summary".data) [] HForest.nil)
            (removeToggleButtons (ofList [HNode.elem ("div".data) [] HForest.nil]))) :=
  ⟨by decide, by decide, c9_missing_summary_empty _ _ (by decide) (by decide)⟩

/-- C9 counterexample: on a toggle div with no nested collapsed summary
element the transform prepends an empty summary — the placeholder string
"Summary not available" appears nowhere in the output, contrary to the
claim that the prepended summary contains the placeholder. -/
theorem c9_counterexample :
    toggleTransform (HNode.elem ("div".data) [("class".data, "toggle".data)]
        (ofList [HNode.elem ("div".data) [] HForest.nil])) =
      HNode.elem ("details".data) []
        (ofList [HNode.elem ("summary".data) [] HForest.nil,
          HNode.elem ("div".data) [] HForest.nil]) ∧
      containsText placeholderSummary
        (ofList [toggleTransform (HNode.elem ("div".data) [("class".data, "toggle".data)]
          (ofList [HNode.elem ("div".data) [] HForest.nil]))]) = false :=
  ⟨by decide, by decide⟩

/-- C10: the phase-2 pass over the first layout region appends .html to
every anchor href that does not already end in '.', '/' or '.html',
regardless of the href's prefix — fragment-only hrefs and absolute URLs
to external hosts included — and leaves every other href alone; anchors
outside the first layout region are untouched. -/
theorem c10_layout_anchor_suffix :
    (∀ href : Str,
        ['.'].isSuffixOf href = false → ['/'].isSuffixOf href = false →
        ".html".data.isSuffixOf href = false → srcLinkFix href = href ++ ".html".data) ∧
      (∀ href : Str,
        (['.'].isSuffixOf href = true ∨ ['/'].isSuffixOf href = true ∨
            ".html".data.isSuffixOf href = true) → srcLinkFix href = href) ∧
      srcLinkFix ("#L10".data) = "#L10.html".data ∧
      srcLinkFix ("https://example.com/page?q=1".data) =
        "https://example.com/page?q=1.html".data ∧
      srcLinkFix ("/pkg/fmt/".data) = "/pkg/fmt/".data ∧
      srcLinkFix ("x.html".data) = "x.html".data ∧
      layoutPass
          (ofList
            [HNode.elem ("div".data) [("class".data, "layout".data)]
              (ofList [HNode.elem ("a".data) [("href".data, "#L10".data)] HForest.nil]),
             HNode.elem ("a".data) [("href".data, "#L11".data)] HForest.nil]) =
        ofList
          [HNode.elem ("div".data) [("class".data, "layout".data)]
            (ofList [HNode.elem ("a".data) [("href".data, "#L10.html".data)] HForest.nil]),
           HNode.elem ("a".data) [("href".data, "#L11".data)] HForest.nil] := by
  refine ⟨?_, ?_, by decide, by decide, by decide, by decide, by decide⟩
  · intro href h1 h2 h3
    rw [srcLinkFix, if_pos (by simp [h1, h2, h3])]
  · intro href h
    rw [srcLinkFix, if_neg (by rcases h with h | h | h <;> simp [h])]

/-- Witness for C10's universal parts at a fragment-only href. -/
theorem c10_layout_anchor_suffix_witness :
    (['.'].isSuffixOf ("#L10".data) = false ∧ ['/'].isSuffixOf ("#L10".data) = false ∧
        ".html".data.isSuffixOf ("#L10".data) = false) ∧
      srcLinkFix ("#L10".data) = "#L10".data ++ ".html".data :=
  ⟨⟨by decide, by decide, by decide⟩,
    c10_layout_anchor_suffix.1 ("#L10".data) (by decide) (by decide) (by decide)⟩

theorem insertHtmlAt_eq_spec (ins href : Str) :
    insertHtmlAt ins href = specInsertBeforeSuffix ins href := by
  rw [insertHtmlAt, specInsertBeforeSuffix, suffixStart]
  cases hq : idxOfChar '?' href with
  | some q => rfl
  | none =>
    cases hh : idxOfChar '#' href with
    | some p => rfl
    | none => simp

theorem idxOfChar_append_none (c : Char) :
    ∀ (a b : Str), idxOfChar c a = none →
      idxOfChar c (a ++ b) = (idxOfChar c b).map (fun i => i + a.length) := by
  intro a
  induction a with
  | nil =>
    intro b _
    cases hx : idxOfChar c b <;> simp [hx]
  | cons d a' ih =>
    intro b hnone
    rw [idxOfChar] at hnone
    by_cases hdc : d = c
    · rw [if_pos hdc] at hnone
      simp at hnone
    · rw [if_neg hdc] at hnone
      have ha' : idxOfChar c a' = none := by
        cases hx : idxOfChar c a' with
        | none => rfl
        | some i => rw [hx] at hnone; simp at hnone
      rw [List.cons_append, idxOfChar, if_neg hdc, ih b ha']
      cases hx : idxOfChar c b with
      | none => rfl
      | some i =>
        simp only [Option.map_some', List.length_cons, Option.some.injEq]
        omega

theorem suffixStart_ge_of_prefix (pre t : Str)
    (hq : idxOfChar '?' pre = none) (hh : idxOfChar '#' pre = none) :
    pre.length ≤ suffixStart (pre ++ t) := by
  rw [suffixStart, idxOfChar_append_none '?' pre t hq]
  cases h1 : idxOfChar '?' t with
  | some q =>
    simp only [Option.map_some']
    omega
  | none =>
    simp only [Option.map_none']
    rw [idxOfChar_append_none '#' pre t hh]
    cases h2 : idxOfChar '#' t with
    | some p =>
      simp only [Option.map_some']
      omega
    | none =>
      simp only [Option.map_none', List.length_append]
      omega

theorem take_spec_insert (n : Nat) (ins href : Str)
    (hn : n ≤ suffixStart href) (hlen : n ≤ href.length) :
    (specInsertBeforeSuffix ins href).take n = href.take n := by
  rw [specInsertBeforeSuffix, List.take_append_eq_append_take,
    List.take_append_eq_append_take, List.take_take]
  have hl : (href.take (suffixStart href)).length = min (suffixStart href) href.length :=
    List.length_take _ _
  have h1 : min n (suffixStart href) = n := by omega
  have h2 : n - (href.take (suffixStart href)).length = 0 := by omega
  have h3 : n - (href.take (suffixStart href) ++ ins).length = 0 := by
    rw [List.length_append]
    omega
  rw [h1, h2, h3, List.take_zero, List.take_zero, List.append_nil, List.append_nil]

theorem pkgPrefix_iff_take (x : Str) :
    "/pkg/".data.isPrefixOf x = true ↔ "/pkg/".data = x.take 5 := by
  rw [List.isPrefixOf_iff_prefix, List.prefix_iff_eq_take]
  have h5 : ("/pkg/".data : Str).length = 5 := rfl
  rw [h5]

/-- C1: for every anchor href beginning with /src/ or /pkg/, the code's
rewrite agrees with the spec-side rule (.html appended exactly when the
final path segment contains a literal dot, inserted immediately before
any query or fragment suffix; /index.html for directory hrefs under
index-linking; /pkg stripped; basePath spliced over the leading slash),
and the three concrete examples of the claim hold. -/
theorem c1_anchor_rewrite :
    (∀ (li : Bool) (bp href : Str),
        ("/src/".data.isPrefixOf href = true ∨ "/pkg/".data.isPrefixOf href = true) →
        rewriteHref li bp href = specRewriteHref li bp href) ∧
      (∀ bp : Str, rewriteHref false bp ("/pkg/foo/bar".data) = bp ++ "foo/bar".data) ∧
      (∀ bp : Str,
        rewriteHref true bp ("/pkg/foo/bar".data) = bp ++ "foo/bar/index.html".data) ∧
      (∀ (li : Bool) (bp : Str),
        rewriteHref li bp ("/src/foo/bar.go".data) = bp ++ "src/foo/bar.go.html".data) := by
  refine ⟨?_, fun bp => rfl, fun bp => rfl, fun li bp => rfl⟩
  intro li bp href hpre
  have hcond : ("/src/".data.isPrefixOf href || "/pkg/".data.isPrefixOf href) = true := by
    rcases hpre with h | h <;> simp [h]
  have hfacts : 5 ≤ href.length ∧ 5 ≤ suffixStart href := by
    rcases hpre with h | h
    · obtain ⟨t, ht⟩ := List.isPrefixOf_iff_prefix.mp h
      subst ht
      have h5 : ("/src/".data : Str).length = 5 := rfl
      refine ⟨by rw [List.length_append, h5]; omega, ?_⟩
      have := suffixStart_ge_of_prefix ("/src/".data) t rfl rfl
      omega
    · obtain ⟨t, ht⟩ := List.isPrefixOf_iff_prefix.mp h
      subst ht
      have h5 : ("/pkg/".data : Str).length = 5 := rfl
      refine ⟨by rw [List.length_append, h5]; omega, ?_⟩
      have := suffixStart_ge_of_prefix ("/pkg/".data) t rfl rfl
      omega
  simp only [rewriteHref, specRewriteHref, insertHtmlAt_eq_spec]
  rw [if_pos hcond]
  set S := (if ((pathBase href).contains '.') = true
    then specInsertBeforeSuffix (".html".data) href
    else if li = true then specInsertBeforeSuffix ("/index.html".data) href else href) with hS
  have htake : S.take 5 = href.take 5 := by
    rw [hS]
    by_cases hdot : ((pathBase href).contains '.') = true
    · rw [if_pos hdot]
      exact take_spec_insert 5 _ href hfacts.2 hfacts.1
    · rw [if_neg hdot]
      by_cases hli : li = true
      · rw [if_pos hli]
        exact take_spec_insert 5 _ href hfacts.2 hfacts.1
      · rw [if_neg hli]
  have hpkg : ("/pkg/".data.isPrefixOf S) = ("/pkg/".data.isPrefixOf href) := by
    cases hcase : "/pkg/".data.isPrefixOf href with
    | true =>
      have hx := (pkgPrefix_iff_take href).mp hcase
      exact (pkgPrefix_iff_take S).mpr (by rw [htake, ← hx])
    | false =>
      cases hcase2 : "/pkg/".data.isPrefixOf S with
      | false => rfl
      | true =>
        have h1 := (pkgPrefix_iff_take S).mp hcase2
        rw [htake] at h1
        have h2 := (pkgPrefix_iff_take href).mpr h1
        rw [hcase] at h2
        exact absurd h2 (by decide)
  rw [hpkg]

/-- Witness for C1's universal refinement part at a concrete href. -/
theorem c1_anchor_rewrite_witness :
    ("/pkg/".data.isPrefixOf ("/pkg/a.b?v=1".data) = true) ∧
      rewriteHref false [] ("/pkg/a.b?v=1".data) =
        specRewriteHref false [] ("/pkg/a.b?v=1".data) :=
  ⟨by decide, c1_anchor_rewrite.1 false [] ("/pkg/a.b?v=1".data) (Or.inr (by decide))⟩

theorem catF_nil : ∀ (x : HForest), catF x HForest.nil = x
  | HForest.nil => rfl
  | HForest.cons n f => by rw [catF, catF_nil f]

theorem rmTag_catF (t : Str) : ∀ (xs ys : HForest),
    rmTag t (catF xs ys) = catF (rmTag t xs) (rmTag t ys)
  | HForest.nil, ys => rfl
  | HForest.cons (HNode.elem tag attrs ch) rest, ys => by
    rw [catF, rmTag, rmTag]
    by_cases h : tag = t
    · rw [if_pos h, if_pos h, rmTag_catF t rest ys]
    · rw [if_neg h, if_neg h, rmTag_catF t rest ys, catF]
  | HForest.cons (HNode.text s) rest, ys => by
    rw [catF, rmTag, rmTag, rmTag_catF t rest ys, catF]
  | HForest.cons (HNode.comment s) rest, ys => by
    rw [catF, rmTag, rmTag, rmTag_catF t rest ys, catF]

theorem noTagF_rmTag_self (t : Str) : ∀ (f : HForest), noTagF t (rmTag t f) = true
  | HForest.nil => rfl
  | HForest.cons (HNode.elem tag attrs ch) rest => by
    rw [rmTag]
    by_cases h : tag = t
    · rw [if_pos h]
      exact noTagF_rmTag_self t rest
    · rw [if_neg h, noTagF]
      simp [beq_iff_eq, h, noTagF_rmTag_self t ch, noTagF_rmTag_self t rest]
  | HForest.cons (HNode.text s) rest => by
    rw [rmTag, noTagF]
    exact noTagF_rmTag_self t rest
  | HForest.cons (HNode.comment s) rest => by
    rw [rmTag, noTagF]
    exact noTagF_rmTag_self t rest

theorem noTagF_rmTag_other (t u : Str) : ∀ (f : HForest),
    noTagF u f = true → noTagF u (rmTag t f) = true
  | HForest.nil, _ => rfl
  | HForest.cons (HNode.elem tag attrs ch) rest, h => by
    rw [noTagF] at h
    simp only [Bool.and_eq_true] at h
    rw [rmTag]
    by_cases ht : tag = t
    · rw [if_pos ht]
      exact noTagF_rmTag_other t u rest h.2
    · rw [if_neg ht, noTagF]
      simp only [Bool.and_eq_true]
      exact ⟨⟨h.1.1, noTagF_rmTag_other t u ch h.1.2⟩, noTagF_rmTag_other t u rest h.2⟩
  | HForest.cons (HNode.text s) rest, h => by
    rw [noTagF] at h
    rw [rmTag, noTagF]
    exact noTagF_rmTag_other t u rest h
  | HForest.cons (HNode.comment s) rest, h => by
    rw [noTagF] at h
    rw [rmTag, noTagF]
    exact noTagF_rmTag_other t u rest h

theorem rmTag_of_noTagF (t : Str) : ∀ (f : HForest),
    noTagF t f = true → rmTag t f = f
  | HForest.nil, _ => rfl
  | HForest.cons (HNode.elem tag attrs ch) rest, h => by
    rw [noTagF] at h
    simp only [Bool.and_eq_true, Bool.not_eq_true', beq_eq_false_iff_ne, ne_eq] at h
    rw [rmTag, if_neg h.1.1, rmTag_of_noTagF t ch h.1.2, rmTag_of_noTagF t rest h.2]
  | HForest.cons (HNode.text s) rest, h => by
    rw [noTagF] at h
    rw [rmTag, rmTag_of_noTagF t rest h]
  | HForest.cons (HNode.comment s) rest, h => by
    rw [noTagF] at h
    rw [rmTag, rmTag_of_noTagF t rest h]

theorem appHeads_of_noHead (L : HNode) : ∀ (f : HForest),
    noTagF ("head".data) f = true → appHeads L f = f
  | HForest.nil, _ => rfl
  | HForest.cons (HNode.elem tag attrs ch) rest, h => by
    rw [noTagF] at h
    simp only [Bool.and_eq_true, Bool.not_eq_true', beq_eq_false_iff_ne, ne_eq] at h
    rw [appHeads, if_neg h.1.1, appHeads_of_noHead L ch h.1.2, appHeads_of_noHead L rest h.2]
  | HForest.cons (HNode.text s) rest, h => by
    rw [noTagF] at h
    rw [appHeads, appHeads_of_noHead L rest h]
  | HForest.cons (HNode.comment s) rest, h => by
    rw [noTagF] at h
    rw [appHeads, appHeads_of_noHead L rest h]

theorem rmTag_appHeads (bp : Str) : ∀ (f : HForest),
    rmTag ("link".data) (appHeads (linkNode bp) f) = rmTag ("link".data) f
  | HForest.nil => rfl
  | HForest.cons (HNode.elem tag attrs ch) rest => by
    rw [appHeads, rmTag, rmTag]
    by_cases h : tag = "link".data
    · rw [if_pos h, if_pos h, rmTag_appHeads bp rest]
    · rw [if_neg h, if_neg h, rmTag_appHeads bp rest]
      by_cases hh : tag = "head".data
      · rw [if_pos hh, rmTag_catF, rmTag_appHeads bp ch]
        have hL : rmTag ("link".data) (HForest.cons (linkNode bp) HForest.nil) =
            HForest.nil := rfl
        rw [hL, catF_nil]
      · rw [if_neg hh, rmTag_appHeads bp ch]
  | HForest.cons (HNode.text s) rest => by
    rw [appHeads, rmTag, rmTag, rmTag_appHeads bp rest]
  | HForest.cons (HNode.comment s) rest => by
    rw [appHeads, rmTag, rmTag, rmTag_appHeads bp rest]

theorem cleanLS_of_clean (f : HForest)
    (hl : noTagF ("link".data) f = true) (hs : noTagF ("script".data) f = true) :
    cleanLS f = f := by
  rw [cleanLS, rmTag_of_noTagF _ _ hl, rmTag_of_noTagF _ _ hs]

theorem cleanLS_catF (xs ys : HForest) :
    cleanLS (catF xs ys) = catF (cleanLS xs) (cleanLS ys) := by
  rw [cleanLS, rmTag_catF, rmTag_catF]
  rfl

theorem cleanLS_cons_elem (tag : Str) (attrs : List (Str × Str)) (ch rest : HForest)
    (hl : ¬ tag = "link".data) (hs : ¬ tag = "script".data) :
    cleanLS (HForest.cons (HNode.elem tag attrs ch) rest) =
      HForest.cons (HNode.elem tag attrs (cleanLS ch)) (cleanLS rest) := by
  rw [cleanLS, rmTag, if_neg hl, rmTag, if_neg hs]
  rfl

theorem cleanLS_cons_text (s : Str) (rest : HForest) :
    cleanLS (HForest.cons (HNode.text s) rest) =
      HForest.cons (HNode.text s) (cleanLS rest) := by
  rw [cleanLS, rmTag, rmTag]
  rfl

theorem cleanLS_cons_comment (s : Str) (rest : HForest) :
    cleanLS (HForest.cons (HNode.comment s) rest) =
      HForest.cons (HNode.comment s) (cleanLS rest) := by
  rw [cleanLS, rmTag, rmTag]
  rfl

theorem cleanLS_appHeads (bp : Str) (f : HForest) :
    cleanLS (appHeads (linkNode bp) f) = cleanLS f := by
  rw [cleanLS, rmTag_appHeads]
  rfl

theorem setTB_flag_false_id (N : HForest) : ∀ (f : HForest),
    (setTB N f).2 = false → (setTB N f).1 = f
  | HForest.nil, _ => rfl
  | HForest.cons (HNode.elem tag attrs ch) rest, h => by
    rw [setTB] at h ⊢
    by_cases htb : getAttr ("id".data) attrs = some ("topbar".data)
    · rw [if_pos htb] at h
      simp at h
    · rw [if_neg htb] at h ⊢
      by_cases hch : (setTB N ch).2 = true
      · rw [if_pos hch] at h
        simp at h
      · rw [if_neg hch] at h ⊢
        show HForest.cons (HNode.elem tag attrs ch) (setTB N rest).1 =
          HForest.cons (HNode.elem tag attrs ch) rest
        rw [setTB_flag_false_id N rest h]
  | HForest.cons (HNode.text s) rest, h => by
    rw [setTB] at h ⊢
    show HForest.cons (HNode.text s) (setTB N rest).1 = HForest.cons (HNode.text s) rest
    rw [setTB_flag_false_id N rest h]
  | HForest.cons (HNode.comment s) rest, h => by
    rw [setTB] at h ⊢
    show HForest.cons (HNode.comment s) (setTB N rest).1 = HForest.cons (HNode.comment s) rest
    rw [setTB_flag_false_id N rest h]

theorem setTB_catF_found (N : HForest) : ∀ (xs ys : HForest),
    (setTB N xs).2 = true →
      setTB N (catF xs ys) = (catF (setTB N xs).1 ys, true)
  | HForest.nil, ys, h => by
    simp [setTB] at h
  | HForest.cons (HNode.elem tag attrs ch) rest, ys, h => by
    rw [setTB] at h
    rw [catF, setTB]
    by_cases htb : getAttr ("id".data) attrs = some ("topbar".data)
    · rw [if_pos htb]
      rw [setTB, if_pos htb]
      rw [catF]
    · rw [if_neg htb] at h
      rw [if_neg htb]
      by_cases hch : (setTB N ch).2 = true
      · rw [if_pos hch]
        rw [setTB, if_neg htb, if_pos hch]
        rw [catF]
      · rw [if_neg hch] at h
        rw [if_neg hch]
        have hrest : (setTB N rest).2 = true := h
        rw [setTB_catF_found N rest ys hrest]
        rw [setTB, if_neg htb, if_neg hch]
        rw [catF]
  | HForest.cons (HNode.text s) rest, ys, h => by
    rw [setTB] at h
    rw [catF, setTB, setTB_catF_found N rest ys h]
    rw [setTB]
    rw [catF]
  | HForest.cons (HNode.comment s) rest, ys, h => by
    rw [setTB] at h
    rw [catF, setTB, setTB_catF_found N rest ys h]
    rw [setTB]
    rw [catF]

theorem setTB_catF_notfound (N : HForest) : ∀ (xs ys : HForest),
    (setTB N xs).2 = false →
      setTB N (catF xs ys) = (catF xs (setTB N ys).1, (setTB N ys).2)
  | HForest.nil, ys, _ => by
    rw [catF]
    rw [catF]
  | HForest.cons (HNode.elem tag attrs ch) rest, ys, h => by
    rw [setTB] at h
    rw [catF, setTB]
    by_cases htb : getAttr ("id".data) attrs = some ("topbar".data)
    · rw [if_pos htb] at h
      simp at h
    · rw [if_neg htb] at h
      rw [if_neg htb]
      by_cases hch : (setTB N ch).2 = true
      · rw [if_pos hch] at h
        simp at h
      · rw [if_neg hch] at h
        rw [if_neg hch]
        have hrest : (setTB N rest).2 = false := h
        rw [setTB_catF_notfound N rest ys hrest]
        rw [catF]
  | HForest.cons (HNode.text s) rest, ys, h => by
    rw [setTB] at h
    rw [catF, setTB, setTB_catF_notfound N rest ys h]
    rw [catF]
  | HForest.cons (HNode.comment s) rest, ys, h => by
    rw [setTB] at h
    rw [catF, setTB, setTB_catF_notfound N rest ys h]
    rw [catF]

theorem setTB_linkNode (N : HForest) (bp : Str) :
    setTB N (HForest.cons (linkNode bp) HForest.nil) =
      (HForest.cons (linkNode bp) HForest.nil, false) := rfl

theorem setTB_appHeads_flag (N : HForest) (bp : Str) : ∀ (f : HForest),
    (setTB N (appHeads (linkNode bp) f)).2 = (setTB N f).2
  | HForest.nil => rfl
  | HForest.cons (HNode.elem tag attrs ch) rest => by
    rw [appHeads, setTB, setTB]
    by_cases htb : getAttr ("id".data) attrs = some ("topbar".data)
    · rw [if_pos htb, if_pos htb]
    · rw [if_neg htb, if_neg htb]
      have hchflag : (setTB N (if tag = "head".data
          then catF (appHeads (linkNode bp) ch) (HForest.cons (linkNode bp) HForest.nil)
          else appHeads (linkNode bp) ch)).2 = (setTB N ch).2 := by
        by_cases hh : tag = "head".data
        · rw [if_pos hh]
          by_cases hc : (setTB N (appHeads (linkNode bp) ch)).2 = true
          · rw [setTB_catF_found N _ _ hc]
            have hx := setTB_appHeads_flag N bp ch
            rw [hc] at hx
            exact hx
          · have hc' : (setTB N (appHeads (linkNode bp) ch)).2 = false :=
              Bool.eq_false_iff.mpr hc
            rw [setTB_catF_notfound N _ _ hc', setTB_linkNode]
            have hx := setTB_appHeads_flag N bp ch
            rw [hc'] at hx
            exact hx
        · rw [if_neg hh]
          exact setTB_appHeads_flag N bp ch
      rw [hchflag]
      by_cases hc : (setTB N ch).2 = true
      · rw [if_pos hc, if_pos hc]
      · rw [if_neg hc, if_neg hc]
        show (setTB N (appHeads (linkNode bp) rest)).2 = (setTB N rest).2
        exact setTB_appHeads_flag N bp rest
  | HForest.cons (HNode.text s) rest => by
    rw [appHeads, setTB, setTB]
    show (setTB N (appHeads (linkNode bp) rest)).2 = (setTB N rest).2
    exact setTB_appHeads_flag N bp rest
  | HForest.cons (HNode.comment s) rest => by
    rw [appHeads, setTB, setTB]
    show (setTB N (appHeads (linkNode bp) rest)).2 = (setTB N rest).2
    exact setTB_appHeads_flag N bp rest

theorem setTB_again (N : HForest) : ∀ (f : HForest),
    setTB N ((setTB N f).1) = ((setTB N f).1, (setTB N f).2)
  | HForest.nil => rfl
  | HForest.cons (HNode.elem tag attrs ch) rest => by
    by_cases htb : getAttr ("id".data) attrs = some ("topbar".data)
    · rw [setTB, if_pos htb]
      show setTB N (HForest.cons (HNode.elem tag attrs N) rest) = _
      rw [setTB, if_pos htb]
    · rw [setTB, if_neg htb]
      by_cases hch : (setTB N ch).2 = true
      · rw [if_pos hch]
        show setTB N (HForest.cons (HNode.elem tag attrs (setTB N ch).1) rest) = _
        rw [setTB, if_neg htb]
        have h1 := setTB_again N ch
        have h2 : (setTB N ((setTB N ch).1)).2 = true := by
          rw [h1]
          exact hch
        rw [if_pos h2, h1]
      · rw [if_neg hch]
        show setTB N (HForest.cons (HNode.elem tag attrs ch) ((setTB N rest).1)) = _
        rw [setTB, if_neg htb, if_neg hch, setTB_again N rest]
  | HForest.cons (HNode.text s) rest => by
    rw [setTB]
    show setTB N (HForest.cons (HNode.text s) ((setTB N rest).1)) = _
    rw [setTB, setTB_again N rest]
  | HForest.cons (HNode.comment s) rest => by
    rw [setTB]
    show setTB N (HForest.cons (HNode.comment s) ((setTB N rest).1)) = _
    rw [setTB, setTB_again N rest]

theorem cleanLS_linkNode (bp : Str) :
    cleanLS (HForest.cons (linkNode bp) HForest.nil) = HForest.nil := rfl

theorem setTB_headchildren_flag (N : HForest) (bp tag : Str) (ch : HForest) :
    (setTB N (if tag = "head".data
        then catF (appHeads (linkNode bp) ch) (HForest.cons (linkNode bp) HForest.nil)
        else appHeads (linkNode bp) ch)).2 = (setTB N ch).2 := by
  by_cases hh : tag = "head".data
  · rw [if_pos hh]
    by_cases hc : (setTB N (appHeads (linkNode bp) ch)).2 = true
    · rw [setTB_catF_found N _ _ hc]
      have hx := setTB_appHeads_flag N bp ch
      rw [hc] at hx
      exact hx
    · have hc' : (setTB N (appHeads (linkNode bp) ch)).2 = false := Bool.eq_false_iff.mpr hc
      rw [setTB_catF_notfound N _ _ hc', setTB_linkNode]
      have hx := setTB_appHeads_flag N bp ch
      rw [hc'] at hx
      exact hx
  · rw [if_neg hh]
    exact setTB_appHeads_flag N bp ch

theorem clean_doc1 (N : HForest) (bp : Str)
    (hNl : noTagF ("link".data) N = true) (hNs : noTagF ("script".data) N = true) :
    ∀ (f : HForest), noTagF ("link".data) f = true → noTagF ("script".data) f = true →
      cleanLS ((setTB N (appHeads (linkNode bp) f)).1) = (setTB N f).1
  | HForest.nil, _, _ => rfl
  | HForest.cons (HNode.elem tag attrs ch) rest, hfl, hfs => by
    rw [noTagF] at hfl hfs
    simp only [Bool.and_eq_true, Bool.not_eq_true', beq_eq_false_iff_ne, ne_eq] at hfl hfs
    rw [appHeads, setTB]
    by_cases htb : getAttr ("id".data) attrs = some ("topbar".data)
    · rw [if_pos htb]
      show cleanLS (HForest.cons (HNode.elem tag attrs N) (appHeads (linkNode bp) rest)) = _
      rw [cleanLS_cons_elem tag attrs N _ hfl.1.1 hfs.1.1,
        cleanLS_of_clean N hNl hNs, cleanLS_appHeads,
        cleanLS_of_clean rest hfl.2 hfs.2,
        setTB, if_pos htb]
    · rw [if_neg htb]
      by_cases hch : (setTB N ch).2 = true
      · have hch' : (setTB N (if tag = "head".data
            then catF (appHeads (linkNode bp) ch) (HForest.cons (linkNode bp) HForest.nil)
            else appHeads (linkNode bp) ch)).2 = true := by
          rw [setTB_headchildren_flag]
          exact hch
        rw [if_pos hch']
        show cleanLS (HForest.cons (HNode.elem tag attrs
            ((setTB N (if tag = "head".data
              then catF (appHeads (linkNode bp) ch) (HForest.cons (linkNode bp) HForest.nil)
              else appHeads (linkNode bp) ch)).1))
            (appHeads (linkNode bp) rest)) = _
        rw [cleanLS_cons_elem _ _ _ _ hfl.1.1 hfs.1.1, cleanLS_appHeads,
          cleanLS_of_clean rest hfl.2 hfs.2]
        have hclch : cleanLS ((setTB N (if tag = "head".data
            then catF (appHeads (linkNode bp) ch) (HForest.cons (linkNode bp) HForest.nil)
            else appHeads (linkNode bp) ch)).1) = (setTB N ch).1 := by
          by_cases hh : tag = "head".data
          · have hc2 : (setTB N (appHeads (linkNode bp) ch)).2 = true := by
              rw [setTB_appHeads_flag]
              exact hch
            have hfound := setTB_catF_found N (appHeads (linkNode bp) ch)
              (HForest.cons (linkNode bp) HForest.nil) hc2
            rw [if_pos hh, hfound]
            show cleanLS (catF ((setTB N (appHeads (linkNode bp) ch)).1)
              (HForest.cons (linkNode bp) HForest.nil)) = _
            rw [cleanLS_catF, cleanLS_linkNode, catF_nil]
            exact clean_doc1 N bp hNl hNs ch hfl.1.2 hfs.1.2
          · rw [if_neg hh]
            exact clean_doc1 N bp hNl hNs ch hfl.1.2 hfs.1.2
        rw [hclch, setTB, if_neg htb, if_pos hch]
      · rw [if_neg (show ¬ (setTB N (if tag = "head".data
            then catF (appHeads (linkNode bp) ch) (HForest.cons (linkNode bp) HForest.nil)
            else appHeads (linkNode bp) ch)).2 = true by
          rw [setTB_headchildren_flag]
          exact hch)]
        show cleanLS (HForest.cons (HNode.elem tag attrs
            (if tag = "head".data
              then catF (appHeads (linkNode bp) ch) (HForest.cons (linkNode bp) HForest.nil)
              else appHeads (linkNode bp) ch))
            ((setTB N (appHeads (linkNode bp) rest)).1)) = _
        rw [cleanLS_cons_elem _ _ _ _ hfl.1.1 hfs.1.1]
        have hclch : cleanLS (if tag = "head".data
            then catF (appHeads (linkNode bp) ch) (HForest.cons (linkNode bp) HForest.nil)
            else appHeads (linkNode bp) ch) = ch := by
          by_cases hh : tag = "head".data
          · rw [if_pos hh, cleanLS_catF, cleanLS_linkNode, catF_nil, cleanLS_appHeads,
              cleanLS_of_clean ch hfl.1.2 hfs.1.2]
          · rw [if_neg hh, cleanLS_appHeads, cleanLS_of_clean ch hfl.1.2 hfs.1.2]
        rw [hclch, clean_doc1 N bp hNl hNs rest hfl.2 hfs.2, setTB, if_neg htb, if_neg hch]
  | HForest.cons (HNode.text s) rest, hfl, hfs => by
    rw [noTagF] at hfl hfs
    rw [appHeads, setTB]
    show cleanLS (HForest.cons (HNode.text s)
      ((setTB N (appHeads (linkNode bp) rest)).1)) = _
    rw [cleanLS_cons_text, clean_doc1 N bp hNl hNs rest hfl hfs, setTB]
  | HForest.cons (HNode.comment s) rest, hfl, hfs => by
    rw [noTagF] at hfl hfs
    rw [appHeads, setTB]
    show cleanLS (HForest.cons (HNode.comment s)
      ((setTB N (appHeads (linkNode bp) rest)).1)) = _
    rw [cleanLS_cons_comment, clean_doc1 N bp hNl hNs rest hfl hfs, setTB]

theorem setTB_appHeads_again (N : HForest) (bp : Str)
    (hNh : noTagF ("head".data) N = true) : ∀ (f : HForest),
    setTB N (appHeads (linkNode bp) ((setTB N f).1)) =
      setTB N (appHeads (linkNode bp) f)
  | HForest.nil => rfl
  | HForest.cons (HNode.elem tag attrs ch) rest => by
    by_cases htb : getAttr ("id".data) attrs = some ("topbar".data)
    · have hf : setTB N (HForest.cons (HNode.elem tag attrs ch) rest) =
          (HForest.cons (HNode.elem tag attrs N) rest, true) := by
        rw [setTB, if_pos htb]
      rw [hf]
      show setTB N (appHeads (linkNode bp)
        (HForest.cons (HNode.elem tag attrs N) rest)) = _
      rw [appHeads, setTB, if_pos htb]
      rw [appHeads, setTB, if_pos htb]
    · by_cases hch : (setTB N ch).2 = true
      · have hf : setTB N (HForest.cons (HNode.elem tag attrs ch) rest) =
            (HForest.cons (HNode.elem tag attrs ((setTB N ch).1)) rest, true) := by
          rw [setTB, if_neg htb, if_pos hch]
        rw [hf]
        show setTB N (appHeads (linkNode bp)
          (HForest.cons (HNode.elem tag attrs ((setTB N ch).1)) rest)) = _
        rw [appHeads, appHeads, setTB, setTB, if_neg htb, if_neg htb]
        have hagain := setTB_again N ch
        have hXflag : (setTB N ((setTB N ch).1)).2 = true := by
          rw [hagain]
          exact hch
        have hflagL : (setTB N (if tag = "head".data
            then catF (appHeads (linkNode bp) ((setTB N ch).1))
              (HForest.cons (linkNode bp) HForest.nil)
            else appHeads (linkNode bp) ((setTB N ch).1))).2 = true := by
          rw [setTB_headchildren_flag]
          exact hXflag
        have hflagR : (setTB N (if tag = "head".data
            then catF (appHeads (linkNode bp) ch) (HForest.cons (linkNode bp) HForest.nil)
            else appHeads (linkNode bp) ch)).2 = true := by
          rw [setTB_headchildren_flag]
          exact hch
        rw [if_pos hflagL, if_pos hflagR]
        have hcheq : (setTB N (if tag = "head".data
            then catF (appHeads (linkNode bp) ((setTB N ch).1))
              (HForest.cons (linkNode bp) HForest.nil)
            else appHeads (linkNode bp) ((setTB N ch).1))).1 =
            (setTB N (if tag = "head".data
            then catF (appHeads (linkNode bp) ch) (HForest.cons (linkNode bp) HForest.nil)
            else appHeads (linkNode bp) ch)).1 := by
          by_cases hh : tag = "head".data
          · have hcL : (setTB N (appHeads (linkNode bp) ((setTB N ch).1))).2 = true := by
              rw [setTB_appHeads_flag, hagain]
              exact hch
            have hcR : (setTB N (appHeads (linkNode bp) ch)).2 = true := by
              rw [setTB_appHeads_flag]
              exact hch
            rw [if_pos hh, if_pos hh, setTB_catF_found N _ _ hcL, setTB_catF_found N _ _ hcR]
            show catF ((setTB N (appHeads (linkNode bp) ((setTB N ch).1))).1)
                (HForest.cons (linkNode bp) HForest.nil) =
              catF ((setTB N (appHeads (linkNode bp) ch)).1)
                (HForest.cons (linkNode bp) HForest.nil)
            rw [setTB_appHeads_again N bp hNh ch]
          · rw [if_neg hh, if_neg hh, setTB_appHeads_again N bp hNh ch]
        rw [hcheq]
      · have hf : setTB N (HForest.cons (HNode.elem tag attrs ch) rest) =
            (HForest.cons (HNode.elem tag attrs ch) ((setTB N rest).1),
              (setTB N rest).2) := by
          rw [setTB, if_neg htb, if_neg hch]
        rw [hf]
        show setTB N (appHeads (linkNode bp)
          (HForest.cons (HNode.elem tag attrs ch) ((setTB N rest).1))) = _
        rw [appHeads, appHeads, setTB, setTB, if_neg htb, if_neg htb]
        have hflag : ¬ (setTB N (if tag = "head".data
            then catF (appHeads (linkNode bp) ch) (HForest.cons (linkNode bp) HForest.nil)
            else appHeads (linkNode bp) ch)).2 = true := by
          rw [setTB_headchildren_flag]
          exact hch
        rw [if_neg hflag, if_neg hflag, setTB_appHeads_again N bp hNh rest]
  | HForest.cons (HNode.text s) rest => by
    have hf : setTB N (HForest.cons (HNode.text s) rest) =
        (HForest.cons (HNode.text s) ((setTB N rest).1), (setTB N rest).2) := by
      rw [setTB]
    rw [hf]
    show setTB N (appHeads (linkNode bp)
      (HForest.cons (HNode.text s) ((setTB N rest).1))) = _
    rw [appHeads, appHeads, setTB, setTB, setTB_appHeads_again N bp hNh rest]
  | HForest.cons (HNode.comment s) rest => by
    have hf : setTB N (HForest.cons (HNode.comment s) rest) =
        (HForest.cons (HNode.comment s) ((setTB N rest).1), (setTB N rest).2) := by
      rw [setTB]
    rw [hf]
    show setTB N (appHeads (linkNode bp)
      (HForest.cons (HNode.comment s) ((setTB N rest).1))) = _
    rw [appHeads, appHeads, setTB, setTB, setTB_appHeads_again N bp hNh rest]

/-- C3: running the head/nav rewrite rules of the page transform (remove
stylesheet links and scripts, insert one stylesheet link to
basePath + "lib/style.css", regenerate the top bar) twice on any
document yields the same document as running them once. -/
theorem c3_headNav_idempotent (li : Bool) (bp siteName : Str) (d : HForest) :
    headNavRules li bp siteName (headNavRules li bp siteName d) =
      headNavRules li bp siteName d := by
  have hNl : noTagF ("link".data) (topBarNodes li bp siteName) = true := rfl
  have hNs : noTagF ("script".data) (topBarNodes li bp siteName) = true := rfl
  have hNh : noTagF ("head".data) (topBarNodes li bp siteName) = true := rfl
  have hgl : noTagF ("link".data)
      (rmTag ("script".data) (rmTag ("link".data) d)) = true :=
    noTagF_rmTag_other ("script".data) ("link".data) _ (noTagF_rmTag_self ("link".data) d)
  have hgs : noTagF ("script".data)
      (rmTag ("script".data) (rmTag ("link".data) d)) = true :=
    noTagF_rmTag_self ("script".data) _
  simp only [headNavRules]
  have hc := clean_doc1 (topBarNodes li bp siteName) bp hNl hNs
    (rmTag ("script".data) (rmTag ("link".data) d)) hgl hgs
  rw [cleanLS] at hc
  rw [hc, setTB_appHeads_again _ bp hNh]
